import Mathlib

/-!
Verification of the alias expansion engine of `azure-cli-core`
(`src/azure-cli-core/azure/cli/core/alias.py`, class `AliasTransformer`).

The engine is embedded shallowly: Python strings become `String`, the
`ConfigParser`-backed alias table becomes an association list from section
name to the optional value of its `command` key, the logger becomes an
explicit list of emitted warnings, and `CLIError` / `IndexError` become an
error type threaded through `Except`.  Python string operations used by the
source (`str.lower`, `str.split`, `str.replace`, substring test, the two
fixed regular expressions, and `re.match` on the accumulated collision
pattern) are modelled by executable functions on `List Char` below.
-/

namespace AliasSpec

/-- Python `str.lower()` (ASCII case folding, as the source relies on). -/
def pyLower (s : String) : String :=
  ⟨s.toList.map Char.toLower⟩

/-- Worker for `pySplit`: split on whitespace runs, dropping empty words,
`acc` holds the current word reversed. -/
def wordsGo : List Char → List Char → List String
  | [], acc => if acc = [] then [] else [⟨acc.reverse⟩]
  | c :: rest, acc =>
    if c.isWhitespace then
      if acc = [] then wordsGo rest [] else ⟨acc.reverse⟩ :: wordsGo rest []
    else wordsGo rest (c :: acc)

/-- Python `str.split()` with no argument: split on whitespace, no empty
parts. -/
def pySplit (s : String) : List String :=
  wordsGo s.toList []

/-- Python `pat in s` (substring containment) on character lists. -/
def containsSub : List Char → List Char → Bool
  | l, pat =>
    pat.isPrefixOf l ||
      match l with
      | [] => false
      | _ :: rest => containsSub rest pat

/-- Worker for `listReplace`; every recursive call strictly shortens the
scanned list, so fuel `l.length + 1` never runs out. -/
def listReplaceGo : Nat → List Char → List Char → List Char → List Char
  | 0, l, _, _ => l
  | _ + 1, [], _, _ => []
  | fuel + 1, c :: rest, pat, rep =>
    if pat ≠ [] ∧ pat.isPrefixOf (c :: rest) then
      rep ++ listReplaceGo fuel ((c :: rest).drop pat.length) pat rep
    else
      c :: listReplaceGo fuel rest pat rep

/-- Python `str.replace(pat, rep)`: replace all non-overlapping occurrences,
scanning left to right.  (All call sites of the source pass a non-empty
pattern.) -/
def listReplace (l pat rep : List Char) : List Char :=
  listReplaceGo (l.length + 1) l pat rep

/-- Python `str.replace` on `String`. -/
def pyReplace (s pat rep : String) : String :=
  ⟨listReplace s.toList pat.toList rep.toList⟩

/-!
`count_positional_args` in the source is `len(re.findall(r'\s*{\d+}', s))`.
Since every match of that pattern contains exactly one `{digits}` literal
and matches are disjoint, the count equals the number of occurrences of a
`{digits}` literal.  `phCount` scans the characters with a three-state
machine: outside any candidate, just after a `{`, or inside the digit run.
-/
mutual
/-- Occurrences of a `{digits}` literal: scanning state "outside". -/
def phCount : List Char → Nat
  | [] => 0
  | c :: rest => if c = '{' then phOpen rest else phCount rest

/-- Scanning state "just consumed a `{`". -/
def phOpen : List Char → Nat
  | [] => 0
  | c :: rest =>
    if c.isDigit then phDigits rest
    else if c = '{' then phOpen rest
    else phCount rest

/-- Scanning state "inside `{` followed by one or more digits". -/
def phDigits : List Char → Nat
  | [] => 0
  | c :: rest =>
    if c = '}' then 1 + phCount rest
    else if c.isDigit then phDigits rest
    else if c = '{' then phOpen rest
    else phCount rest
end

/-- Whether a character list begins with a `{digits}` placeholder literal. -/
def isPlaceholderStart : List Char → Bool
  | [] => false
  | c :: rest =>
    c = '{' &&
      (!(rest.takeWhile Char.isDigit).isEmpty &&
        ((rest.dropWhile Char.isDigit).head? == some '}'))

/-- Specification-level placeholder count: the number of positions at which a
`{digits}` placeholder occurrence begins (occurrences of distinct starts
cannot overlap, so this equals the number of regex matches). -/
def posCount : List Char → Nat
  | [] => 0
  | c :: rest => (if isPlaceholderStart (c :: rest) then 1 else 0) + posCount rest

mutual
/-- Collect the digit strings of each `{digits}` occurrence (used to define
the spec's "distinct placeholders" reading): state "outside". -/
def phOcc : List Char → List (List Char)
  | [] => []
  | c :: rest => if c = '{' then phOccOpen rest else phOcc rest

/-- `phOcc` state "just consumed a `{`". -/
def phOccOpen : List Char → List (List Char)
  | [] => []
  | c :: rest =>
    if c.isDigit then phOccDigits [c] rest
    else if c = '{' then phOccOpen rest
    else phOcc rest

/-- `phOcc` state "inside digits"; `acc` holds the digits seen, reversed. -/
def phOccDigits (acc : List Char) : List Char → List (List Char)
  | [] => []
  | c :: rest =>
    if c = '}' then acc.reverse :: phOcc rest
    else if c.isDigit then phOccDigits (c :: acc) rest
    else if c = '{' then phOccOpen rest
    else phOcc rest
end

/-- Modelled from the spec's data model wording: "`positionalCount` = number
of distinct `{n}` placeholders appearing in `template`".  Defined as the
number of distinct digit strings among the placeholder occurrences of the
template.  This is the spec-side definition claim C8 compares against the
source's `count_positional_args`. -/
def specDistinctPlaceholderCount (template : String) : Nat :=
  ((phOcc template.toList).dedup).length

/-!
Matches of `ENV_VAR_REGEX = r'\$[a-zA-Z][a-zA-Z0-9]*'` (`re.findall`):
a `$` followed by an ASCII letter and a greedy run of ASCII alphanumerics,
non-overlapping, left to right.
-/
/-- Scan for matches; every recursive call strictly shortens the list, so
fuel `l.length + 1` never runs out.  On a match the letter and the greedy
alphanumeric run are taken, and scanning resumes after them. -/
def envVarsGo : Nat → List Char → List String
  | 0, _ => []
  | _ + 1, [] => []
  | fuel + 1, '$' :: rest =>
    match rest with
    | [] => []
    | c :: rest2 =>
      if c.isAlpha then
        (⟨'$' :: c :: rest2.takeWhile Char.isAlphanum⟩ : String) ::
          envVarsGo fuel (rest2.dropWhile Char.isAlphanum)
      else
        envVarsGo fuel (c :: rest2)
  | fuel + 1, _ :: rest => envVarsGo fuel rest

/-- `re.findall(ENV_VAR_REGEX, arg)`. -/
def findEnvVars (arg : String) : List String :=
  envVarsGo (arg.toList.length + 1) arg.toList

/-- The character class `['|\"]` of `QUOTES_REGEX`: note that the `|` inside
the class is a literal pipe character, so it is stripped too. -/
def quoteOrPipe (c : Char) : Bool :=
  c = '\'' || c = '|' || c = '"'

/-- `re.sub(r'^[\'|\"]|[\'|\"]$', '', arg)`: one leading and one trailing
quote (or pipe) character are removed in a single pass. -/
def remove_leading_trailing_quotes (arg : String) : String :=
  let l := arg.toList
  let l1 :=
    match l with
    | [] => ([] : List Char)
    | c :: rest => if quoteOrPipe c then rest else l
  let l2 :=
    match l1.getLast? with
    | some c => if quoteOrPipe c then l1.dropLast else l1
    | none => l1
  ⟨l2⟩

/-- `os.path.expandvars` restricted to a single `$NAME` reference: the value
of the environment variable if set, the reference itself unchanged if not.
The host environment is the external parameter `env` (name, without the
`$`, to optional value). -/
def expandvars (env : String → Option String) (v : String) : String :=
  match env ⟨v.toList.drop 1⟩ with
  | some value => value
  | none => v

/-- `inject_env_vars` from `post_transform`: find all env-var references and
replace each (all of its occurrences) by its expansion, in match order. -/
def inject_env_vars (env : String → Option String) (arg : String) : String :=
  (findEnvVars arg).foldl (fun a v => pyReplace a v (expandvars env v)) arg

/-- `AliasTransformer.post_transform`: quote trimming then env-var
injection, token by token. -/
def post_transform (env : String → Option String) (args : List String) : List String :=
  args.map (fun a => inject_env_vars env (remove_leading_trailing_quotes a))

/-!
The accumulated collision pattern is kept as a raw string, exactly as the
source keeps `self.collision_regex` (it is extended by appending
`alias.lower() + r'($|\s)'` and rewritten with `str.replace`).  `reMatch`
interprets the dialect these operations generate, matching `re.match`
(anchored at the start, pattern need not consume the whole string):
literal characters, `\s`, `\d`, `\`-escaped literals, `$` as an
end-of-string anchor, and `(...|...)` alternation groups.  A single leading
`^` is redundant under `re.match` and is stripped.  (Quantifiers, character
classes and a mid-pattern `^` cannot be produced by the source's
construction from alias names free of regex metacharacters, and are not
modelled; `$` before a trailing newline is not modelled as reserved
commands contain no newlines.)
-/

/-- Split the body of a group at its top-level `|`s, returning the
alternatives and the pattern after the closing `)`. -/
def parseGroupGo : List Char → Nat → List Char → List (List Char) →
    Option (List (List Char) × List Char)
  | [], _, _, _ => none
  | '(' :: rest, d, cur, alts => parseGroupGo rest (d + 1) ('(' :: cur) alts
  | ')' :: rest, 0, cur, alts => some (alts ++ [cur.reverse], rest)
  | ')' :: rest, d + 1, cur, alts => parseGroupGo rest d (')' :: cur) alts
  | '|' :: rest, 0, cur, alts => parseGroupGo rest 0 [] (alts ++ [cur.reverse])
  | c :: rest, d, cur, alts => parseGroupGo rest d (c :: cur) alts

/-- Backtracking matcher; every recursive call strictly shrinks the pattern,
so fuel `pattern.length + 1` never runs out. -/
def reMatchGo : Nat → List Char → List Char → Bool
  | 0, _, _ => false
  | _ + 1, [], _ => true
  | fuel + 1, '$' :: ps, s => s.isEmpty && reMatchGo fuel ps s
  | fuel + 1, '\\' :: 's' :: ps, s =>
    match s with
    | [] => false
    | x :: xs => x.isWhitespace && reMatchGo fuel ps xs
  | fuel + 1, '\\' :: 'd' :: ps, s =>
    match s with
    | [] => false
    | x :: xs => x.isDigit && reMatchGo fuel ps xs
  | fuel + 1, '\\' :: c :: ps, s =>
    match s with
    | [] => false
    | x :: xs => (x == c) && reMatchGo fuel ps xs
  | _ + 1, ['\\'], _ => false
  | fuel + 1, '(' :: ps, s =>
    match parseGroupGo ps 0 [] [] with
    | some (alts, rest) => alts.any fun alt => reMatchGo fuel (alt ++ rest) s
    | none => false
  | fuel + 1, c :: ps, s =>
    match s with
    | [] => false
    | x :: xs => (x == c) && reMatchGo fuel ps xs

/-- `re.match(pattern, s)` truthiness for the collision-pattern dialect. -/
def reMatch (pattern s : String) : Bool :=
  let ps :=
    match pattern.toList with
    | '^' :: rest => rest
    | other => other
  reMatchGo (ps.length + 1) ps s.toList

/-- Decidable equality on `Except` results, for concrete evaluation. -/
instance instDecEqExcept {ε α : Type} [DecidableEq ε] [DecidableEq α] :
    DecidableEq (Except ε α) := fun x y =>
  match x, y with
  | .error a, .error b =>
    if h : a = b then isTrue (by rw [h])
    else isFalse (fun hx => h (by injection hx))
  | .ok a, .ok b =>
    if h : a = b then isTrue (by rw [h])
    else isFalse (fun hx => h (by injection hx))
  | .error _, .ok _ => isFalse (fun hx => Except.noConfusion hx)
  | .ok _, .error _ => isFalse (fun hx => Except.noConfusion hx)

/-- The errors `transform` can surface: the two `CLIError`s of the source
and the unhandled `IndexError` of `alias[0]` on an empty token. -/
inductive TransformError where
  | inconsistentIndexing
  | recursiveAlias (token : String)
  | indexError
deriving DecidableEq

/-- The mutable state of an `AliasTransformer` instance: the parsed alias
table (section name to the optional value of its `command` key), and the
three fields `__init__` sets and `transform` mutates. -/
structure AliasTransformer where
  aliasTable : List (String × Option String)
  reservedCommands : List String
  collisionRegex : String
  collisionCache : List String
deriving DecidableEq

/-- `query in self.alias_table` for a `ConfigParser`: true for an existing
section and for the always-present default section `'DEFAULT'`. -/
def aliasTableContains (table : List (String × Option String)) (query : String) : Bool :=
  table.any (fun e => e.1 == query) || query == "DEFAULT"

/-- `AliasTransformer.get_full_alias`: the exact section name if present,
else the first section whose first word equals the query, else `''`.
(Section names read from a config file are non-empty; a whitespace-only
section name, on which the source's `section.split()[0]` would raise, is
given first word `''` here.) -/
def get_full_alias (table : List (String × Option String)) (query : String) : String :=
  if aliasTableContains table query then query
  else
    match table.find? (fun e => (pySplit e.1).headD "" == query) with
    | some e => e.1
    | none => ""

/-- `self.alias_table[full_alias].get('command', alias) if full_alias in
self.alias_table else alias`. -/
def lookupCommand (table : List (String × Option String)) (full_alias al : String) :
    String :=
  if aliasTableContains table full_alias then
    match (table.find? (fun e => e.1 == full_alias)).bind (fun e => e.2) with
    | some c => c
    | none => al
  else al

/-- `AliasTransformer.count_positional_args`:
`len(re.findall(r'\s*{\d+}', full_alias))`. -/
def count_positional_args (full_alias : String) : Nat :=
  phCount full_alias.toList

/-- `AliasTransformer.get_truncated_reserved_commands`: the reserved
commands whose text matches the collision pattern from the start. -/
def get_truncated_reserved_commands (reserved : List String) (regex : String) :
    List String :=
  reserved.filter (fun cmd => reMatch regex cmd)

/-- The nested `is_collision` of `transform`.  It always appends
`alias.lower() + r'($|\s)'` to the collision pattern; if any reserved
command still matches, the alias is recorded in the collision cache and the
reserved set is narrowed to the matching subset. -/
def is_collision (t : AliasTransformer) (al : String) : Bool × AliasTransformer :=
  let regex2 := t.collisionRegex ++ pyLower al ++ "($|\\s)"
  let collided := get_truncated_reserved_commands t.reservedCommands regex2
  if collided.isEmpty then
    (false, { t with collisionRegex := regex2 })
  else
    (true, { t with
              collisionRegex := regex2,
              reservedCommands := collided,
              collisionCache :=
                if al ∈ t.collisionCache then t.collisionCache
                else al :: t.collisionCache })

/-- The placeholder-substitution loop of `transform` over
`pos_args_iter`: for the `k`-th consumed token, `'{k}'` must occur in the
current command string (else `CLIError(INCONSISTENT_INDEXING_ERROR)`), and
all its occurrences are replaced by the token. -/
def substPosArgs : Nat → List String → String → Except TransformError String
  | _, [], cmd => .ok cmd
  | k, arg :: rest, cmd =>
    let ph := "\x7b" ++ toString k ++ "\x7d"
    if containsSub cmd.toList ph.toList then
      substPosArgs (k + 1) rest (pyReplace cmd ph arg)
    else .error .inconsistentIndexing

/-- The accumulating state of one `transform` call: the transformer fields
(`self`), the output token list, and the warnings emitted so far. -/
structure StepState where
  t : AliasTransformer
  output : List String
  warnings : List (String × String)
deriving DecidableEq

/-- One iteration of the scan loop of `transform` on token `alias`, with
`rest` the tokens after it.  Returns the new state and how many of `rest`
were consumed as positional arguments (the source's `next(args_iter)`
skips). -/
def transformStep (st : StepState) (al : String) (rest : List String) :
    Except TransformError (StepState × Nat) :=
  let full_alias := get_full_alias st.t.aliasTable al
  let num_pos_args := count_positional_args full_alias
  let cmd_derived := lookupCommand st.t.aliasTable full_alias al
  match al.toList with
  | [] => .error .indexError
  | c :: _ =>
    let p := if c = '-' then (false, st.t) else is_collision st.t al
    if p.1 then
      .ok ({ t := p.2,
             output := st.output ++ [al],
             warnings := st.warnings ++
               (if al ≠ cmd_derived then [(al, cmd_derived)] else []) }, 0)
    else if num_pos_args = 0 ∧ al ≠ cmd_derived then
      let regex2 := pyReplace p.2.collisionRegex (pyLower al) (pyLower cmd_derived)
      .ok ({ t := { p.2 with
                     collisionRegex := regex2,
                     reservedCommands :=
                       get_truncated_reserved_commands p.2.reservedCommands regex2 },
             output := st.output ++ pySplit cmd_derived,
             warnings := st.warnings }, 0)
    else if 0 < num_pos_args then
      if rest.length < num_pos_args then .error .inconsistentIndexing
      else
        match substPosArgs 0 (rest.take num_pos_args) cmd_derived with
        | .error e => .error e
        | .ok cmd2 =>
          .ok ({ st with t := p.2, output := st.output ++ pySplit cmd2 }, num_pos_args)
    else
      .ok ({ st with t := p.2, output := st.output ++ pySplit cmd_derived }, 0)

/-- Worker for the scan loop: each iteration consumes at least the current
token, so fuel `l.length` is sufficient (the fuel-exhausted case is
unreachable from `transformLoop`). -/
def transformLoopGo : Nat → List String → StepState → Except TransformError StepState
  | 0, _, st => .ok st
  | _ + 1, [], st => .ok st
  | fuel + 1, al :: rest, st =>
    match transformStep st al rest with
    | .error e => .error e
    | .ok (st2, n) => transformLoopGo fuel (rest.drop n) st2

/-- The scan loop of `transform` over the argument vector. -/
def transformLoop (l : List String) (st : StepState) :
    Except TransformError StepState :=
  transformLoopGo l.length l st

/-- `AliasTransformer.check_recursive_alias`: the first output token that
was not deliberately left unexpanded (collision cache) and still resolves
to an alias. -/
def check_recursive_alias (t : AliasTransformer) (commands : List String) :
    Option String :=
  commands.find? (fun sub =>
    decide (sub ∉ t.collisionCache) && decide (get_full_alias t.aliasTable sub ≠ ""))

/-- `AliasTransformer.transform`: the full scan, post-processing and
recursion guard.  On success returns the mutated transformer (`self`), the
resolved token sequence, and the warnings emitted. -/
def transform (env : String → Option String) (t : AliasTransformer)
    (args : List String) :
    Except TransformError (AliasTransformer × List String × List (String × String)) :=
  match transformLoop args { t := t, output := [], warnings := [] } with
  | .error e => .error e
  | .ok st =>
    let out := post_transform env st.output
    if out ≠ args then
      match check_recursive_alias st.t out with
      | some tok => .error (.recursiveAlias tok)
      | none => .ok (st.t, out, st.warnings)
    else .ok (st.t, out, st.warnings)

/-- Output projection, for stating concrete counterexamples without binders. -/
def outputOf
    (r : Except TransformError (AliasTransformer × List String × List (String × String))) :
    Option (List String) :=
  match r with
  | .ok (_, o, _) => some o
  | .error _ => none

/-- State projection, for stating concrete counterexamples without binders. -/
def stateOf
    (r : Except TransformError (AliasTransformer × List String × List (String × String))) :
    Option AliasTransformer :=
  match r with
  | .ok (t, _, _) => some t
  | .error _ => none

/-- An empty host environment. -/
def env0 : String → Option String := fun _ => none

/-!  Concrete transformer instances used by witnesses and counterexamples. -/

/-- Alias `vm → account list` shadowing the reserved command `vm create`. -/
def tVM : AliasTransformer :=
  ⟨[("vm", some "account list")], ["vm create"], "^", []⟩

/-- The state `tVM` is left in after one `transform` call on `["vm"]`. -/
def tVM1 : AliasTransformer :=
  ⟨[("vm", some "account list")], ["vm create"], "^vm($|\\s)", ["vm"]⟩

/-- Alias `list → vm show` with no reserved conflict at level 1. -/
def tList : AliasTransformer :=
  ⟨[("list", some "vm show")], ["vm create"], "^", []⟩

/-- The state `tList` is left in after expanding `["list"]`. -/
def tList2 : AliasTransformer :=
  ⟨[("list", some "vm show")], [], "^vm show($|\\s)", []⟩

/-- Parameterized alias `cm {0} {1} → vm create -g {0} -n {1}`. -/
def tCM : AliasTransformer :=
  ⟨[("cm {0} {1}", some "vm create -g {0} -n {1}")], [], "^", []⟩

/-- Mutually recursive aliases `a → b`, `b → a`. -/
def tAB : AliasTransformer :=
  ⟨[("a", some "b"), ("b", some "a")], [], "^", []⟩

/-- An empty alias table. -/
def tEmpty : AliasTransformer :=
  ⟨[], [], "^", []⟩

/-- An alias whose name is the flag-like token `-f`. -/
def tFlag : AliasTransformer :=
  ⟨[("-f", some "x")], [], "^", []⟩

/-- A table not mentioning any flag token. -/
def tFoo : AliasTransformer :=
  ⟨[("foo", some "bar")], ["x"], "^", []⟩

/-- A bare section name `cm` whose command template has two distinct
placeholders. -/
def tCMbare : AliasTransformer :=
  ⟨[("cm", some "vm -g {0} -n {1}")], [], "^", []⟩

/-- Alias `gl → group list`. -/
def tGL : AliasTransformer :=
  ⟨[("gl", some "group list")], [], "^", []⟩

/-- Parameterized alias `cm {0} → group {0}`. -/
def tCM0 : AliasTransformer :=
  ⟨[("cm {0}", some "group {0}")], [], "^", []⟩

/-- No aliases, one reserved command. -/
def tIdent : AliasTransformer :=
  ⟨[], ["vm create"], "^", []⟩

/-!  Helper lemmas. -/

/-- The substitution loop only ever fails with the inconsistent-indexing
error. -/
theorem substPosArgs_error_eq (k : Nat) (xs : List String) (cmd : String)
    (e : TransformError) (h : substPosArgs k xs cmd = .error e) :
    e = .inconsistentIndexing := by
  induction xs generalizing k cmd with
  | nil => simp [substPosArgs] at h
  | cons x rest ih =>
    simp only [substPosArgs] at h
    split at h
    · exact ih _ _ h
    · injection h with h2
      exact h2.symm

/-- A string with an empty character list is the empty string. -/
theorem string_eq_empty_of_toList {s : String} (h : s.toList = []) : s = "" := by
  cases s with
  | mk d =>
    simp only [String.toList] at h
    subst h
    rfl

/-- `is_collision` does not touch the alias table. -/
theorem is_collision_aliasTable (t : AliasTransformer) (al : String) :
    ((is_collision t al).2).aliasTable = t.aliasTable := by
  simp only [is_collision]
  split <;> rfl

/-- `is_collision` only ever adds the queried token to the collision cache. -/
theorem is_collision_cache (t : AliasTransformer) (al : String) :
    ∀ x ∈ ((is_collision t al).2).collisionCache,
      x ∈ t.collisionCache ∨ x = al := by
  intro x hx
  simp only [is_collision] at hx
  split at hx
  · exact Or.inl hx
  · simp only at hx
    split at hx
    · exact Or.inl hx
    · rcases List.mem_cons.mp hx with h | h
      · exact Or.inr h
      · exact Or.inl h

/-- A successful scan step never changes the alias table and only ever adds
the processed token to the collision cache. -/
theorem transformStep_ok_frame (st : StepState) (al : String) (rest : List String)
    (st2 : StepState) (n : Nat) (h : transformStep st al rest = .ok (st2, n)) :
    st2.t.aliasTable = st.t.aliasTable ∧
      (∀ x ∈ st2.t.collisionCache, x ∈ st.t.collisionCache ∨ x = al) := by
  simp only [transformStep] at h
  split at h
  · exact Except.noConfusion h
  · rename_i c cs hcs
    generalize hP : (if c = '-' then (false, st.t) else is_collision st.t al) = P at h
    have hPt : P.2.aliasTable = st.t.aliasTable := by
      rw [← hP]
      split
      · rfl
      · exact is_collision_aliasTable _ _
    have hPc : ∀ x ∈ P.2.collisionCache, x ∈ st.t.collisionCache ∨ x = al := by
      rw [← hP]
      split
      · exact fun x hx => Or.inl hx
      · exact is_collision_cache _ _
    split at h
    · injection h with h1
      cases h1
      exact ⟨hPt, hPc⟩
    · split at h
      · injection h with h1
        cases h1
        exact ⟨hPt, hPc⟩
      · split at h
        · split at h
          · exact Except.noConfusion h
          · split at h
            · exact Except.noConfusion h
            · injection h with h1
              cases h1
              exact ⟨hPt, hPc⟩
        · injection h with h1
          cases h1
          exact ⟨hPt, hPc⟩

/-- On a non-empty token a scan step never raises the index error. -/
theorem transformStep_ne_indexError (st : StepState) (al : String)
    (rest : List String) (ha : al ≠ "") :
    transformStep st al rest ≠ .error .indexError := by
  intro h
  simp only [transformStep] at h
  split at h
  · rename_i heq
    exact ha (string_eq_empty_of_toList heq)
  · rename_i c cs hcs
    generalize hP : (if c = '-' then (false, st.t) else is_collision st.t al) = P at h
    split at h
    · exact Except.noConfusion h
    · split at h
      · exact Except.noConfusion h
      · split at h
        · split at h
          · injection h with h1
            exact TransformError.noConfusion h1
          · split at h
            · rename_i e heq
              injection h with h1
              rw [h1] at heq
              exact TransformError.noConfusion (substPosArgs_error_eq _ _ _ _ heq)
            · exact Except.noConfusion h
        · exact Except.noConfusion h

/-- Exhausted-or-not, two sufficient fuels run the scan loop identically. -/
theorem transformLoopGo_fuel_irrel :
    ∀ (N M : Nat) (l : List String) (st : StepState), l.length ≤ N → l.length ≤ M →
      transformLoopGo N l st = transformLoopGo M l st := by
  intro N
  induction N with
  | zero =>
    intro M l st hN hM
    have hnil : l = [] := List.eq_nil_of_length_eq_zero (Nat.le_zero.mp hN)
    subst hnil
    cases M <;> rfl
  | succ N ih =>
    intro M l st hN hM
    match l with
    | [] => cases M <;> rfl
    | al :: rest =>
      cases M with
      | zero =>
        simp only [List.length_cons] at hM
        omega
      | succ M2 =>
        simp only [transformLoopGo]
        cases hstep : transformStep st al rest with
        | error e => rfl
        | ok p =>
          obtain ⟨st1, n⟩ := p
          simp only
          have hd : (rest.drop n).length ≤ rest.length :=
            (List.drop_sublist n rest).length_le
          simp only [List.length_cons] at hN hM
          exact ih M2 (rest.drop n) st1 (by omega) (by omega)

/-- The scan loop never changes the alias table and only ever adds processed
tokens to the collision cache. -/
theorem transformLoopGo_frame :
    ∀ (N : Nat) (l : List String) (st st2 : StepState),
      transformLoopGo N l st = .ok st2 →
      st2.t.aliasTable = st.t.aliasTable ∧
        (∀ x ∈ st2.t.collisionCache, x ∈ st.t.collisionCache ∨ x ∈ l) := by
  intro N
  induction N with
  | zero =>
    intro l st st2 h
    simp only [transformLoopGo] at h
    injection h with h1
    cases h1
    exact ⟨rfl, fun x hx => Or.inl hx⟩
  | succ N ih =>
    intro l st st2 h
    match l with
    | [] =>
      simp only [transformLoopGo] at h
      injection h with h1
      cases h1
      exact ⟨rfl, fun x hx => Or.inl hx⟩
    | al :: rest =>
      simp only [transformLoopGo] at h
      cases hstep : transformStep st al rest with
      | error e =>
        rw [hstep] at h
        exact Except.noConfusion h
      | ok p =>
        obtain ⟨st1, n⟩ := p
        rw [hstep] at h
        simp only at h
        have hframe := transformStep_ok_frame st al rest st1 n hstep
        have hrec := ih (rest.drop n) st1 st2 h
        refine ⟨hrec.1.trans hframe.1, fun x hx => ?_⟩
        rcases hrec.2 x hx with h1 | h1
        · rcases hframe.2 x h1 with h2 | h2
          · exact Or.inl h2
          · exact Or.inr (h2 ▸ List.mem_cons_self al rest)
        · exact Or.inr (List.mem_cons_of_mem al (List.drop_subset n rest h1))

/-- `transformLoopGo_frame` for the loop entry point. -/
theorem transformLoop_frame (l : List String) (st st2 : StepState)
    (h : transformLoop l st = .ok st2) :
    st2.t.aliasTable = st.t.aliasTable ∧
      (∀ x ∈ st2.t.collisionCache, x ∈ st.t.collisionCache ∨ x ∈ l) :=
  transformLoopGo_frame l.length l st st2 h

/-- On non-empty tokens the scan loop never raises the index error. -/
theorem transformLoopGo_ne_indexError :
    ∀ (N : Nat) (l : List String) (st : StepState),
      (∀ tok ∈ l, tok ≠ "") →
      transformLoopGo N l st ≠ .error .indexError := by
  intro N
  induction N with
  | zero =>
    intro l st _ h
    simp only [transformLoopGo] at h
    exact Except.noConfusion h
  | succ N ih =>
    intro l st htok h
    match l with
    | [] =>
      simp only [transformLoopGo] at h
      exact Except.noConfusion h
    | al :: rest =>
      simp only [transformLoopGo] at h
      cases hstep : transformStep st al rest with
      | error e =>
        rw [hstep] at h
        injection h with h1
        rw [h1] at hstep
        exact transformStep_ne_indexError st al rest
          (htok al (List.mem_cons_self al rest)) hstep
      | ok p =>
        obtain ⟨st1, n⟩ := p
        rw [hstep] at h
        simp only at h
        exact ih (rest.drop n) st1
          (fun tok htk => htok tok
            (List.mem_cons_of_mem al (List.drop_subset n rest htk))) h

/-- `transformLoopGo_ne_indexError` for the loop entry point. -/
theorem transformLoop_ne_indexError (l : List String) (st : StepState)
    (htok : ∀ tok ∈ l, tok ≠ "") :
    transformLoop l st ≠ .error .indexError :=
  transformLoopGo_ne_indexError l.length l st htok

/-- In a table whose section names are non-empty (as `ConfigParser` section
headers are), the empty string is not a key. -/
theorem aliasTableContains_empty_false (table : List (String × Option String))
    (hWF : ∀ e ∈ table, e.1 ≠ "") : aliasTableContains table "" = false := by
  simp only [aliasTableContains, Bool.or_eq_false_iff, List.any_eq_false]
  constructor
  · intro e he
    simpa using hWF e he
  · decide

/-- A token that resolves to no alias derives itself as its command. -/
theorem lookupCommand_of_no_alias (table : List (String × Option String))
    (al : String) (hWF : ∀ e ∈ table, e.1 ≠ "")
    (hfa : get_full_alias table al = "") :
    lookupCommand table (get_full_alias table al) al = al := by
  rw [hfa]
  simp [lookupCommand, aliasTableContains_empty_false table hWF]

/-- A step on a token that resolves to no alias appends the token itself to
the output (and emits no warning). -/
theorem transformStep_inert (st : StepState) (al : String) (rest : List String)
    (hWF : ∀ e ∈ st.t.aliasTable, e.1 ≠ "")
    (hsp : pySplit al = [al])
    (hfa : get_full_alias st.t.aliasTable al = "") :
    ∃ t2, transformStep st al rest =
        .ok ({ t := t2, output := st.output ++ [al], warnings := st.warnings }, 0) ∧
      t2.aliasTable = st.t.aliasTable := by
  have hcmd : lookupCommand st.t.aliasTable (get_full_alias st.t.aliasTable al) al = al :=
    lookupCommand_of_no_alias st.t.aliasTable al hWF hfa
  have hnum : count_positional_args (get_full_alias st.t.aliasTable al) = 0 := by
    rw [hfa]
    decide
  have hal : al.toList ≠ [] := by
    intro h0
    have h1 : al = "" := string_eq_empty_of_toList h0
    subst h1
    exact absurd hsp (by decide)
  obtain ⟨c, cs, hcs⟩ : ∃ c cs, al.toList = c :: cs := by
    cases h : al.toList with
    | nil => exact absurd h hal
    | cons c cs => exact ⟨c, cs, rfl⟩
  simp only [transformStep, hcs, hcmd, hnum, hsp]
  simp only [ne_eq, not_true_eq_false, if_false, and_false, lt_irrefl, List.append_nil]
  refine ⟨(if c = '-' then (false, st.t) else is_collision st.t al).2,
    by rw [ite_self], ?_⟩
  split
  · rfl
  · exact is_collision_aliasTable st.t al

/-- The scan loop echoes a vector of tokens that resolve to no alias. -/
theorem transformLoopGo_inert :
    ∀ (N : Nat) (l : List String) (st : StepState), l.length ≤ N →
      (∀ e ∈ st.t.aliasTable, e.1 ≠ "") →
      (∀ tok ∈ l, pySplit tok = [tok] ∧ get_full_alias st.t.aliasTable tok = "") →
      ∃ T2, transformLoopGo N l st =
          .ok { t := T2, output := st.output ++ l, warnings := st.warnings } ∧
        T2.aliasTable = st.t.aliasTable := by
  intro N
  induction N with
  | zero =>
    intro l st hl _ _
    have hnil : l = [] := List.eq_nil_of_length_eq_zero (Nat.le_zero.mp hl)
    subst hnil
    exact ⟨st.t, by simp [transformLoopGo], rfl⟩
  | succ N ih =>
    intro l st hl hWF htok
    match l with
    | [] => exact ⟨st.t, by simp [transformLoopGo], rfl⟩
    | al :: rest =>
      obtain ⟨t2, hstep, ht2⟩ :=
        transformStep_inert st al rest hWF
          (htok al (List.mem_cons_self al rest)).1
          (htok al (List.mem_cons_self al rest)).2
      have hlen : rest.length ≤ N := by
        simp only [List.length_cons] at hl
        omega
      obtain ⟨T2, hloop, hT2⟩ :=
        ih rest { t := t2, output := st.output ++ [al], warnings := st.warnings }
          hlen
          (by
            intro e he
            rw [ht2] at he
            exact hWF e he)
          (by
            intro tok htk
            have h1 := htok tok (List.mem_cons_of_mem al htk)
            rw [ht2]
            exact h1)
      refine ⟨T2, ?_, by rw [hT2]; exact ht2⟩
      simp only [transformLoopGo, hstep, List.drop_zero, hloop]
      simp [List.append_assoc]

/-- `transformLoopGo_inert` for the loop entry point. -/
theorem transformLoop_inert (l : List String) (st : StepState)
    (hWF : ∀ e ∈ st.t.aliasTable, e.1 ≠ "")
    (htok : ∀ tok ∈ l, pySplit tok = [tok] ∧ get_full_alias st.t.aliasTable tok = "") :
    ∃ T2, transformLoop l st =
        .ok { t := T2, output := st.output ++ l, warnings := st.warnings } ∧
      T2.aliasTable = st.t.aliasTable :=
  transformLoopGo_inert l.length l st (Nat.le_refl _) hWF htok

/-- Post-processing is the identity on tokens it leaves unchanged. -/
theorem post_transform_id (env : String → Option String) (args : List String)
    (h : ∀ a ∈ args, inject_env_vars env (remove_leading_trailing_quotes a) = a) :
    post_transform env args = args := by
  unfold post_transform
  calc args.map (fun a => inject_env_vars env (remove_leading_trailing_quotes a))
      = args.map id := List.map_congr_left h
    _ = args := List.map_id args

/-- A digit character is not a brace. -/
theorem digit_ne_braces {c : Char} (h : c.isDigit = true) : c ≠ '{' ∧ c ≠ '}' := by
  constructor <;> intro heq <;> subst heq <;> exact absurd h (by decide)

/-- A placeholder occurrence can only start at a `{`. -/
theorem posCount_cons_ne (c : Char) (l : List Char) (hc : c ≠ '{') :
    posCount (c :: l) = posCount l := by
  have h : isPlaceholderStart (c :: l) = false := by
    simp [isPlaceholderStart, hc]
  simp [posCount, h]

/-- Prepending brace-free characters does not create placeholder starts. -/
theorem posCount_append_no_brace (ds l : List Char) (hds : ∀ c ∈ ds, c ≠ '{') :
    posCount (ds ++ l) = posCount l := by
  induction ds with
  | nil => rfl
  | cons d ds ih =>
    rw [List.cons_append, posCount_cons_ne d _ (hds d (List.mem_cons_self d ds))]
    exact ih (fun c hc => hds c (List.mem_cons_of_mem d hc))

/-- `takeWhile` passes over a prefix of satisfying elements. -/
theorem takeWhile_append_all (p : Char → Bool) (ds l : List Char)
    (hds : ∀ c ∈ ds, p c = true) :
    (ds ++ l).takeWhile p = ds ++ l.takeWhile p := by
  induction ds with
  | nil => rfl
  | cons d ds ih =>
    rw [List.cons_append, List.takeWhile_cons, if_pos (hds d (List.mem_cons_self d ds)),
      List.cons_append, ih (fun c hc => hds c (List.mem_cons_of_mem d hc))]

/-- `dropWhile` drops a prefix of satisfying elements. -/
theorem dropWhile_append_all (p : Char → Bool) (ds l : List Char)
    (hds : ∀ c ∈ ds, p c = true) :
    (ds ++ l).dropWhile p = l.dropWhile p := by
  induction ds with
  | nil => rfl
  | cons d ds ih =>
    rw [List.cons_append, List.dropWhile_cons, if_pos (hds d (List.mem_cons_self d ds))]
    exact ih (fun c hc => hds c (List.mem_cons_of_mem d hc))

/-- `posCount` of brace-free characters is zero. -/
theorem posCount_eq_zero (ds : List Char) (h : ∀ c ∈ ds, c ≠ '{') : posCount ds = 0 := by
  induction ds with
  | nil => rfl
  | cons d ds ih =>
    rw [posCount_cons_ne d ds (h d (List.mem_cons_self d ds))]
    exact ih (fun c hc => h c (List.mem_cons_of_mem d hc))

/-- Unfolding `posCount` at a placeholder start. -/
theorem posCount_cons_pos {c : Char} {l : List Char}
    (h : isPlaceholderStart (c :: l) = true) : posCount (c :: l) = 1 + posCount l := by
  simp [posCount, h]

/-- Unfolding `posCount` away from a placeholder start. -/
theorem posCount_cons_neg {c : Char} {l : List Char}
    (h : isPlaceholderStart (c :: l) = false) : posCount (c :: l) = posCount l := by
  simp [posCount, h]

/-- No placeholder starts at a `{` followed by a non-digit. -/
theorem isPH_not_digit (c : Char) (rest : List Char) (hc : c.isDigit = false) :
    isPlaceholderStart ('{' :: c :: rest) = false := by
  simp [isPlaceholderStart, List.takeWhile_cons, hc]

/-- No placeholder starts at a `{` followed by digits up to the end. -/
theorem isPH_digits_end (ds : List Char) (hds : ∀ c ∈ ds, c.isDigit = true) :
    isPlaceholderStart ('{' :: ds) = false := by
  have hdw : ds.dropWhile Char.isDigit = [] := by
    simpa using dropWhile_append_all Char.isDigit ds [] hds
  simp [isPlaceholderStart, hdw]

/-- A placeholder starts at `{`, digits, `}`. -/
theorem isPH_digits_close (ds rest : List Char) (hne : ds ≠ [])
    (hds : ∀ c ∈ ds, c.isDigit = true) :
    isPlaceholderStart ('{' :: (ds ++ '}' :: rest)) = true := by
  simp only [isPlaceholderStart, takeWhile_append_all Char.isDigit ds _ hds,
    dropWhile_append_all Char.isDigit ds _ hds]
  rw [List.takeWhile_cons, List.dropWhile_cons]
  simp [hne, (show ('}' : Char).isDigit = false by decide)]

/-- No placeholder starts at `{`, digits, then a non-digit other than `}`. -/
theorem isPH_digits_other (ds rest : List Char) (c : Char)
    (hds : ∀ x ∈ ds, x.isDigit = true) (hc : c.isDigit = false) (hcb : c ≠ '}') :
    isPlaceholderStart ('{' :: (ds ++ c :: rest)) = false := by
  simp only [isPlaceholderStart, dropWhile_append_all Char.isDigit ds _ hds]
  rw [List.dropWhile_cons]
  simp [hc, hcb]

/-- The three scanning states of `phCount` compute the position-based
placeholder count, each in its own context. -/
theorem ph_eq_posCount_aux (N : Nat) :
    ∀ l : List Char, l.length ≤ N →
      (phCount l = posCount l) ∧
      (phOpen l = posCount ('{' :: l)) ∧
      (∀ ds : List Char, ds ≠ [] → (∀ c ∈ ds, c.isDigit = true) →
        phDigits l = posCount ('{' :: (ds ++ l))) := by
  induction N with
  | zero =>
    intro l hl
    have hnil : l = [] := List.eq_nil_of_length_eq_zero (Nat.le_zero.mp hl)
    subst hnil
    refine ⟨rfl, by decide, fun ds hne hds => ?_⟩
    have hds' : ∀ c ∈ ds, c ≠ '{' := fun c hc => (digit_ne_braces (hds c hc)).1
    rw [List.append_nil, posCount_cons_neg (isPH_digits_end ds hds),
      posCount_eq_zero ds hds']
    rfl
  | succ N ih =>
    intro l hl
    match l with
    | [] => exact ih [] (Nat.zero_le N)
    | c :: rest =>
      have hlen : rest.length ≤ N := by
        simp only [List.length_cons] at hl
        omega
      have IH := ih rest hlen
      refine ⟨?_, ?_, ?_⟩
      · by_cases hc : c = '{'
        · subst hc
          simp only [phCount]
          rw [if_pos trivial]
          exact IH.2.1
        · simp only [phCount]
          rw [if_neg hc, posCount_cons_ne c rest hc]
          exact IH.1
      · by_cases hd : c.isDigit = true
        · simp only [phOpen]
          rw [if_pos hd]
          exact IH.2.2 [c] (by simp) (by simpa using hd)
        · have hd' : c.isDigit = false := by
            cases hb : c.isDigit with
            | false => rfl
            | true => exact absurd hb hd
          by_cases hc : c = '{'
          · subst hc
            simp only [phOpen]
            rw [if_neg (show ¬(('{' : Char).isDigit = true) by decide), if_pos trivial,
              posCount_cons_neg (isPH_not_digit '{' rest (by decide))]
            exact IH.2.1
          · simp only [phOpen]
            rw [if_neg hd, if_neg hc,
              posCount_cons_neg (isPH_not_digit c rest hd'), posCount_cons_ne c rest hc]
            exact IH.1
      · intro ds hne hds
        have hds' : ∀ x ∈ ds, x ≠ '{' := fun x hx => (digit_ne_braces (hds x hx)).1
        by_cases hcb : c = '}'
        · subst hcb
          simp only [phDigits]
          rw [if_pos trivial, posCount_cons_pos (isPH_digits_close ds rest hne hds),
            posCount_append_no_brace ds _ hds',
            posCount_cons_ne '}' rest (by decide), IH.1]
        · by_cases hd : c.isDigit = true
          · simp only [phDigits]
            rw [if_neg hcb, if_pos hd]
            have h2 := IH.2.2 (ds ++ [c])
              (by simp)
              (by
                intro x hx
                rcases List.mem_append.mp hx with h | h
                · exact hds x h
                · rw [List.mem_singleton.mp h]
                  exact hd)
            rw [h2, List.append_assoc, List.singleton_append]
          · have hd' : c.isDigit = false := by
              cases hb : c.isDigit with
              | false => rfl
              | true => exact absurd hb hd
            by_cases hc : c = '{'
            · subst hc
              simp only [phDigits]
              rw [if_neg (show ¬(('{' : Char) = '}') by decide),
                if_neg (show ¬(('{' : Char).isDigit = true) by decide), if_pos trivial,
                posCount_cons_neg (isPH_digits_other ds rest '{' hds (by decide) (by decide)),
                posCount_append_no_brace ds _ hds']
              exact IH.2.1
            · simp only [phDigits]
              rw [if_neg hcb, if_neg hd, if_neg hc,
                posCount_cons_neg (isPH_digits_other ds rest c hds hd' hcb),
                posCount_append_no_brace ds _ hds',
                posCount_cons_ne c rest hc]
              exact IH.1

/-- The placeholder-occurrence count of the source's state machine equals
the position-based count. -/
theorem phCount_eq_posCount (l : List Char) : phCount l = posCount l :=
  (ph_eq_posCount_aux l.length l (Nat.le_refl _)).1

/-- When a token is a flag or does not collide, the scan's collision
predicate is false. -/
theorem collision_flag_false (st : StepState) (al : String) (c : Char)
    (hnc : c = '-' ∨ (is_collision st.t al).1 = false) :
    (if c = '-' then (false, st.t) else is_collision st.t al).1 = false := by
  by_cases hc : c = '-'
  · rw [if_pos hc]
  · rw [if_neg hc]
    rcases hnc with h | h
    · exact absurd h hc
    · exact h

/-!  The claims. -/

/-- C1: for a non-flag token whose accumulated collision pattern, extended
by the token anchored at a token boundary, still matches a reserved command,
the scan appends the original token unmodified, records it in the collision
cache, narrows the reserved set to the matching subset, warns with the alias
and the command it would have mapped to (when they differ, i.e. when there
is a mapping to name), and does not expand; with no remaining match, a
matched non-parameterized alias still expands. -/
theorem C1_collision_suppression (st : StepState) (al : String)
    (rest : List String) (c : Char) (cs : List Char)
    (hcs : al.toList = c :: cs) (hc : c ≠ '-') :
    (get_truncated_reserved_commands st.t.reservedCommands
        (st.t.collisionRegex ++ pyLower al ++ "($|\\s)") ≠ [] →
      transformStep st al rest =
        .ok ({ t := { st.t with
                       collisionRegex := st.t.collisionRegex ++ pyLower al ++ "($|\\s)",
                       reservedCommands := get_truncated_reserved_commands
                         st.t.reservedCommands
                         (st.t.collisionRegex ++ pyLower al ++ "($|\\s)"),
                       collisionCache :=
                         if al ∈ st.t.collisionCache then st.t.collisionCache
                         else al :: st.t.collisionCache },
               output := st.output ++ [al],
               warnings := st.warnings ++
                 (if al ≠ lookupCommand st.t.aliasTable
                     (get_full_alias st.t.aliasTable al) al
                  then [(al, lookupCommand st.t.aliasTable
                     (get_full_alias st.t.aliasTable al) al)]
                  else []) }, 0)) ∧
    (get_truncated_reserved_commands st.t.reservedCommands
        (st.t.collisionRegex ++ pyLower al ++ "($|\\s)") = [] →
      count_positional_args (get_full_alias st.t.aliasTable al) = 0 →
      al ≠ lookupCommand st.t.aliasTable (get_full_alias st.t.aliasTable al) al →
      ∃ t2, transformStep st al rest =
        .ok ({ t := t2,
               output := st.output ++
                 pySplit (lookupCommand st.t.aliasTable
                   (get_full_alias st.t.aliasTable al) al),
               warnings := st.warnings }, 0)) := by
  constructor
  · intro hne
    have hcol : is_collision st.t al =
        (true, { st.t with
                  collisionRegex := st.t.collisionRegex ++ pyLower al ++ "($|\\s)",
                  reservedCommands := get_truncated_reserved_commands
                    st.t.reservedCommands
                    (st.t.collisionRegex ++ pyLower al ++ "($|\\s)"),
                  collisionCache :=
                    if al ∈ st.t.collisionCache then st.t.collisionCache
                    else al :: st.t.collisionCache }) := by
      simp only [is_collision]
      split
      · rename_i hE
        exact absurd (List.isEmpty_iff.mp hE) hne
      · rfl
    simp only [transformStep, hcs]
    rw [if_neg hc, hcol]
    rfl
  · intro hemp hnum hneq
    have hcol : is_collision st.t al =
        (false, { st.t with
                   collisionRegex := st.t.collisionRegex ++ pyLower al ++ "($|\\s)" }) := by
      simp only [is_collision]
      split
      · rfl
      · rename_i hE
        rw [List.isEmpty_iff] at hE
        exact absurd hemp hE
    have hred : ∀ (A B : Except TransformError (StepState × Nat)),
        (if ((false, { st.t with
            collisionRegex := st.t.collisionRegex ++ pyLower al ++ "($|\\s)" }) :
          Bool × AliasTransformer).1 = true then A else B) = B := by
      intro A B
      rfl
    simp only [transformStep, hcs]
    rw [if_neg hc, hcol, hred, if_pos (And.intro hnum hneq)]
    exact ⟨_, rfl⟩

/-- C2: a matched alias with `k > 0` derived positional placeholders
consumes the next `k` tokens in order, substitutes them into the template,
emits the split substituted command, and the scan continues after the
consumed tokens, which are never re-processed. -/
theorem C2_positional_consumption (st : StepState) (al : String)
    (rest : List String) (c : Char) (cs : List Char) (cmd2 : String)
    (hcs : al.toList = c :: cs)
    (hnc : c = '-' ∨ (is_collision st.t al).1 = false)
    (hk : 0 < count_positional_args (get_full_alias st.t.aliasTable al))
    (hlen : count_positional_args (get_full_alias st.t.aliasTable al) ≤ rest.length)
    (hsub : substPosArgs 0
        (rest.take (count_positional_args (get_full_alias st.t.aliasTable al)))
        (lookupCommand st.t.aliasTable (get_full_alias st.t.aliasTable al) al) =
      .ok cmd2) :
    ∃ t2, transformStep st al rest =
        .ok ({ st with t := t2, output := st.output ++ pySplit cmd2 },
          count_positional_args (get_full_alias st.t.aliasTable al)) ∧
      transformLoop (al :: rest) st =
        transformLoop
          (rest.drop (count_positional_args (get_full_alias st.t.aliasTable al)))
          { st with t := t2, output := st.output ++ pySplit cmd2 } := by
  have hP1 := collision_flag_false st al c hnc
  have hstep : transformStep st al rest =
      .ok ({ st with
              t := (if c = '-' then (false, st.t) else is_collision st.t al).2,
              output := st.output ++ pySplit cmd2 },
        count_positional_args (get_full_alias st.t.aliasTable al)) := by
    simp only [transformStep, hcs]
    rw [if_neg (show ¬((if c = '-' then (false, st.t) else is_collision st.t al).1 = true)
        from by rw [hP1]; simp),
      if_neg (show ¬(count_positional_args (get_full_alias st.t.aliasTable al) = 0 ∧
          al ≠ lookupCommand st.t.aliasTable (get_full_alias st.t.aliasTable al) al)
        from fun hand => absurd hand.1 (Nat.pos_iff_ne_zero.mp hk)),
      if_pos hk, if_neg (Nat.not_lt.mpr hlen), hsub]
  refine ⟨_, hstep, ?_⟩
  simp only [transformLoop, List.length_cons, transformLoopGo, hstep]
  exact transformLoopGo_fuel_irrel rest.length _ _ _
    ((List.drop_sublist _ _).length_le) (Nat.le_refl _)

/-- C3: after post-processing, if the output differs from the input and some
output token outside the collision cache resolves to an alias, `transform`
raises the recursive-alias error naming such a token. -/
theorem C3_recursive_alias (env : String → Option String)
    (t : AliasTransformer) (args : List String) (st : StepState) (tok : String)
    (hloop : transformLoop args ⟨t, [], []⟩ = .ok st)
    (hne : post_transform env st.output ≠ args)
    (hmem : tok ∈ post_transform env st.output)
    (hcache : tok ∉ st.t.collisionCache)
    (hres : get_full_alias st.t.aliasTable tok ≠ "") :
    ∃ tok2, transform env t args = .error (.recursiveAlias tok2) ∧
      tok2 ∈ post_transform env st.output ∧
      tok2 ∉ st.t.collisionCache ∧
      get_full_alias st.t.aliasTable tok2 ≠ "" := by
  have hp : (fun sub => decide (sub ∉ st.t.collisionCache) &&
      decide (get_full_alias st.t.aliasTable sub ≠ "")) tok = true := by
    simp [hcache, hres]
  have hsome : ((post_transform env st.output).find? (fun sub =>
      decide (sub ∉ st.t.collisionCache) &&
        decide (get_full_alias st.t.aliasTable sub ≠ ""))).isSome :=
    List.find?_isSome.mpr ⟨tok, hmem, hp⟩
  obtain ⟨tok2, hfind⟩ := Option.isSome_iff_exists.mp hsome
  have hp2 := List.find?_some hfind
  simp only [Bool.and_eq_true, decide_eq_true_eq] at hp2
  have hcheck : check_recursive_alias st.t (post_transform env st.output) = some tok2 :=
    hfind
  refine ⟨tok2, ?_, List.mem_of_find?_eq_some hfind, hp2.1, hp2.2⟩
  unfold transform
  rw [hloop]
  simp only
  rw [if_pos hne, hcheck]

/-- C5: a matched alias with positional placeholders fails with the
inconsistent-indexing error as soon as fewer tokens remain than placeholders
or a generated placeholder is absent from the command being substituted,
and a loop error aborts `transform` with that error (no output). -/
theorem C5_inconsistent_indexing (st : StepState) (al : String)
    (rest : List String) (c : Char) (cs : List Char)
    (hcs : al.toList = c :: cs)
    (hnc : c = '-' ∨ (is_collision st.t al).1 = false)
    (hk : 0 < count_positional_args (get_full_alias st.t.aliasTable al)) :
    (rest.length < count_positional_args (get_full_alias st.t.aliasTable al) →
      transformLoop (al :: rest) st = .error .inconsistentIndexing) ∧
    (∀ e, substPosArgs 0
        (rest.take (count_positional_args (get_full_alias st.t.aliasTable al)))
        (lookupCommand st.t.aliasTable (get_full_alias st.t.aliasTable al) al) =
        .error e →
      e = .inconsistentIndexing ∧
        transformLoop (al :: rest) st = .error .inconsistentIndexing) ∧
    (∀ (env : String → Option String) (t0 : AliasTransformer)
        (args : List String) (e : TransformError),
      transformLoop args ⟨t0, [], []⟩ = .error e →
      transform env t0 args = .error e) := by
  have hP1 := collision_flag_false st al c hnc
  have hbase : ∀ r : Except TransformError (StepState × Nat),
      transformStep st al rest = r →
      transformLoop (al :: rest) st =
        (match r with
         | .error e => .error e
         | .ok (st2, n) => transformLoopGo rest.length (rest.drop n) st2) := by
    intro r hr
    simp only [transformLoop, List.length_cons, transformLoopGo, hr]
  refine ⟨?_, ?_, ?_⟩
  · intro hlt
    have hstep : transformStep st al rest = .error .inconsistentIndexing := by
      simp only [transformStep, hcs]
      rw [if_neg (show ¬((if c = '-' then (false, st.t) else is_collision st.t al).1 = true)
          from by rw [hP1]; simp),
        if_neg (show ¬(count_positional_args (get_full_alias st.t.aliasTable al) = 0 ∧
            al ≠ lookupCommand st.t.aliasTable (get_full_alias st.t.aliasTable al) al)
          from fun hand => absurd hand.1 (Nat.pos_iff_ne_zero.mp hk)),
        if_pos hk, if_pos hlt]
    rw [hbase _ hstep]
  · intro e hsub
    have he : e = .inconsistentIndexing := substPosArgs_error_eq _ _ _ _ hsub
    refine ⟨he, ?_⟩
    by_cases hlt : rest.length < count_positional_args (get_full_alias st.t.aliasTable al)
    · have hstep : transformStep st al rest = .error .inconsistentIndexing := by
        simp only [transformStep, hcs]
        rw [if_neg (show ¬((if c = '-' then (false, st.t) else is_collision st.t al).1 = true)
            from by rw [hP1]; simp),
          if_neg (show ¬(count_positional_args (get_full_alias st.t.aliasTable al) = 0 ∧
              al ≠ lookupCommand st.t.aliasTable (get_full_alias st.t.aliasTable al) al)
            from fun hand => absurd hand.1 (Nat.pos_iff_ne_zero.mp hk)),
          if_pos hk, if_pos hlt]
      rw [hbase _ hstep]
    · have hstep : transformStep st al rest = .error .inconsistentIndexing := by
        simp only [transformStep, hcs]
        rw [if_neg (show ¬((if c = '-' then (false, st.t) else is_collision st.t al).1 = true)
            from by rw [hP1]; simp),
          if_neg (show ¬(count_positional_args (get_full_alias st.t.aliasTable al) = 0 ∧
              al ≠ lookupCommand st.t.aliasTable (get_full_alias st.t.aliasTable al) al)
            from fun hand => absurd hand.1 (Nat.pos_iff_ne_zero.mp hk)),
          if_pos hk, if_neg hlt, hsub, he]
      rw [hbase _ hstep]
  · intro env t0 args e hloop
    unfold transform
    rw [hloop]

/-- C1 witness: `vm → account list` shadowed by reserved `vm create` is
left unexpanded with a warning; `list → vm show` with no level-1 conflict
expands. -/
theorem C1_witness :
    transformStep ⟨tVM, [], []⟩ "vm" ["create"] =
      .ok ({ t := tVM1, output := ["vm"], warnings := [("vm", "account list")] }, 0) ∧
    transform env0 tList ["list"] = .ok (tList2, ["vm", "show"], []) := by
  have h := (C1_collision_suppression ⟨tVM, [], []⟩ "vm" ["create"] 'v' ['m']
    (by decide) (by decide)).1 (by decide)
  obtain ⟨t2, h2⟩ := (C1_collision_suppression ⟨tList, [], []⟩ "list" [] 'l'
    ['i', 's', 't'] (by decide) (by decide)).2 (by decide) (by decide) (by decide)
  exact ⟨by decide, by decide⟩

/-- C2 witness: `cm {0} {1} → vm create -g {0} -n {1}` on
`["cm", "rg1", "vm1"]` consumes both positional tokens and yields the
substituted command; the consumed tokens are not re-processed. -/
theorem C2_witness :
    transformStep ⟨tCM, [], []⟩ "cm" ["rg1", "vm1"] =
      .ok (⟨⟨[("cm {0} {1}", some "vm create -g {0} -n {1}")], [], "^cm($|\\s)", []⟩,
        ["vm", "create", "-g", "rg1", "-n", "vm1"], []⟩, 2) ∧
    transformLoop ["cm", "rg1", "vm1"] ⟨tCM, [], []⟩ =
      transformLoop []
        ⟨⟨[("cm {0} {1}", some "vm create -g {0} -n {1}")], [], "^cm($|\\s)", []⟩,
          ["vm", "create", "-g", "rg1", "-n", "vm1"], []⟩ ∧
    transform env0 tCM ["cm", "rg1", "vm1"] =
      .ok (⟨[("cm {0} {1}", some "vm create -g {0} -n {1}")], [], "^cm($|\\s)", []⟩,
        ["vm", "create", "-g", "rg1", "-n", "vm1"], []) := by
  obtain ⟨t2, h1, h2⟩ := C2_positional_consumption ⟨tCM, [], []⟩ "cm" ["rg1", "vm1"]
    'c' ['m'] "vm create -g rg1 -n vm1" (by decide) (Or.inr (by decide)) (by decide)
    (by decide) (by decide)
  exact ⟨by decide, by decide, by decide⟩

/-- C3 witness: aliases `a → b`, `b → a` make `transform ["a"]` fail with
the recursive-alias error naming `"b"`. -/
theorem C3_witness :
    transform env0 tAB ["a"] = .error (.recursiveAlias "b") := by
  obtain ⟨tok2, h1, h2, h3, h4⟩ := C3_recursive_alias env0 tAB ["a"]
    ⟨⟨[("a", some "b"), ("b", some "a")], [], "^b($|\\s)", []⟩, ["b"], []⟩ "b"
    (by decide) (by decide) (by decide) (by decide) (by decide)
  exact (by decide)

/-- C5 witness: `cm {0} {1}` with only one trailing token fails with the
inconsistent-indexing error, and `transform` aborts with it. -/
theorem C5_witness :
    transformLoop ["cm", "rg1"] ⟨tCM, [], []⟩ = .error .inconsistentIndexing ∧
    transform env0 tCM ["cm", "rg1"] = .error .inconsistentIndexing := by
  have h := C5_inconsistent_indexing ⟨tCM, [], []⟩ "cm" ["rg1"] 'c' ['m']
    (by decide) (Or.inr (by decide)) (by decide)
  exact ⟨h.1 (by decide),
    h.2.2 env0 tCM ["cm", "rg1"] .inconsistentIndexing (h.1 (by decide))⟩

/-- C4 counterexample: with an empty alias table (so no token resolves to
any alias), quote trimming still changes the output, so `Expand` does not
echo the input. -/
theorem C4_counterexample :
    get_full_alias tEmpty.aliasTable "'x'" = "" ∧
    transform env0 tEmpty ["'x'"] = .ok (⟨[], [], "^'x'($|\\s)", []⟩, ["x"], []) ∧
    (["x"] : List String) ≠ ["'x'"] := by decide

/-- C4 (amended): for non-empty, whitespace-free tokens that resolve to no
alias and are fixed by post-processing, `transform` echoes the input, and a
second call on the returned engine echoes it again. -/
theorem C4_identity_on_inert_args (env : String → Option String)
    (t : AliasTransformer) (args : List String)
    (hWF : ∀ e ∈ t.aliasTable, e.1 ≠ "")
    (htok : ∀ tok ∈ args, pySplit tok = [tok] ∧
      get_full_alias t.aliasTable tok = "" ∧
      inject_env_vars env (remove_leading_trailing_quotes tok) = tok) :
    ∃ t1 w1, transform env t args = .ok (t1, args, w1) ∧
      t1.aliasTable = t.aliasTable ∧
      ∃ t2 w2, transform env t1 args = .ok (t2, args, w2) := by
  have main : ∀ t0 : AliasTransformer, t0.aliasTable = t.aliasTable →
      ∃ t1 w1, transform env t0 args = .ok (t1, args, w1) ∧
        t1.aliasTable = t.aliasTable := by
    intro t0 ht0
    obtain ⟨T2, hloop, hT2⟩ := transformLoop_inert args ⟨t0, [], []⟩
      (fun e he => hWF e (ht0 ▸ he))
      (fun tok htk => ⟨(htok tok htk).1, by
        show get_full_alias t0.aliasTable tok = ""
        rw [ht0]
        exact (htok tok htk).2.1⟩)
    have hout : post_transform env ([] ++ args) = args := by
      rw [List.nil_append]
      exact post_transform_id env args (fun a ha => (htok a ha).2.2)
    refine ⟨T2, [], ?_, by rw [hT2]; exact ht0⟩
    unfold transform
    rw [hloop]
    simp only
    rw [hout, if_neg (show ¬(args ≠ args) from fun hx => hx rfl)]
  obtain ⟨t1, w1, h1, ht1⟩ := main t rfl
  obtain ⟨t2, w2, h2, _⟩ := main t1 ht1
  exact ⟨t1, w1, h1, ht1, t2, w2, h2⟩

/-- C4 witness: two alias-free tokens are echoed by two successive calls on
the same engine. -/
theorem C4_witness :
    transform env0 tIdent ["hello", "world"] =
      .ok (⟨[], ["vm create"], "^hello($|\\s)world($|\\s)", []⟩,
        ["hello", "world"], []) ∧
    outputOf (transform env0 ⟨[], ["vm create"], "^hello($|\\s)world($|\\s)", []⟩
      ["hello", "world"]) = some ["hello", "world"] := by
  obtain ⟨t1, w1, h1, ht1, t2, w2, h2⟩ := C4_identity_on_inert_args env0 tIdent
    ["hello", "world"] (by decide) (by decide)
  exact ⟨by decide, by decide⟩

/-- C6 counterexample: a table entry named `-f` is consulted for the flag
token `-f`, which is expanded rather than passed through. -/
theorem C6_counterexample :
    transform env0 tFlag ["-f"] = .ok (tFlag, ["x"], []) ∧
    (["x"] : List String) ≠ ["-f"] := by decide

/-- C6 (amended): a token beginning with `-` skips the collision check (for
a flag matching no table entry the state is unchanged and the token passes
through), but it is still looked up in the alias table, and a matching
non-parameterized entry is expanded. -/
theorem C6_flag_token (st : StepState) (al : String) (rest : List String)
    (cs : List Char) (hcs : al.toList = '-' :: cs)
    (hWF : ∀ e ∈ st.t.aliasTable, e.1 ≠ "") :
    (get_full_alias st.t.aliasTable al = "" →
      transformStep st al rest =
        .ok ({ st with output := st.output ++ pySplit al }, 0)) ∧
    (count_positional_args (get_full_alias st.t.aliasTable al) = 0 →
      al ≠ lookupCommand st.t.aliasTable (get_full_alias st.t.aliasTable al) al →
      ∃ t2, transformStep st al rest =
        .ok ({ t := t2,
               output := st.output ++ pySplit (lookupCommand st.t.aliasTable
                 (get_full_alias st.t.aliasTable al) al),
               warnings := st.warnings }, 0)) := by
  have hfalse : ∀ (A B : Except TransformError (StepState × Nat)),
      (if ((false, st.t) : Bool × AliasTransformer).1 = true then A else B) = B :=
    fun A B => rfl
  constructor
  · intro hfa
    have hcmd := lookupCommand_of_no_alias st.t.aliasTable al hWF hfa
    have hnum : count_positional_args (get_full_alias st.t.aliasTable al) = 0 := by
      rw [hfa]
      decide
    simp only [transformStep, hcs]
    rw [if_pos trivial, hfalse,
      if_neg (show ¬(count_positional_args (get_full_alias st.t.aliasTable al) = 0 ∧
          al ≠ lookupCommand st.t.aliasTable (get_full_alias st.t.aliasTable al) al)
        from fun hand => hand.2 hcmd.symm),
      if_neg (show ¬(0 < count_positional_args (get_full_alias st.t.aliasTable al))
        from by rw [hnum]; simp)]
    rw [hcmd]
  · intro hnum hneq
    simp only [transformStep, hcs]
    rw [if_pos trivial, hfalse, if_pos (And.intro hnum hneq)]
    exact ⟨_, rfl⟩

/-- C6 witness: a flag matching no entry passes through with the state
unchanged; the flag-named alias `-f → x` is expanded. -/
theorem C6_witness :
    transformStep ⟨tFoo, [], []⟩ "-g" [] = .ok (⟨tFoo, ["-g"], []⟩, 0) ∧
    transformStep ⟨tFlag, [], []⟩ "-f" [] = .ok (⟨tFlag, ["x"], []⟩, 0) := by
  have h1 := (C6_flag_token ⟨tFoo, [], []⟩ "-g" [] ['g'] (by decide) (by decide)).1
    (by decide)
  obtain ⟨t2, h2⟩ := (C6_flag_token ⟨tFlag, [], []⟩ "-f" [] ['f'] (by decide)
    (by decide)).2 (by decide) (by decide)
  exact ⟨by decide, by decide⟩

/-- C7 counterexample: one `transform` call persistently mutates the
engine (collision pattern, reserved set, collision cache), and a second
call with the same arguments returns a different result. -/
theorem C7_counterexample :
    transform env0 tVM ["vm"] = .ok (tVM1, ["vm"], [("vm", "account list")]) ∧
    tVM1 ≠ tVM ∧
    transform env0 tVM1 ["vm"] =
      .ok (⟨[("vm", some "account list")], [],
        "^account list($|\\s)account list($|\\s)", ["vm"]⟩,
        ["account", "list"], []) ∧
    (["account", "list"] : List String) ≠ ["vm"] := by decide

/-- C7 (amended): `transform` never mutates the alias table, though the
other engine fields do persist across calls. -/
theorem C7_alias_table_preserved (env : String → Option String)
    (t : AliasTransformer) (args : List String) (t2 : AliasTransformer)
    (out : List String) (w : List (String × String))
    (h : transform env t args = .ok (t2, out, w)) :
    t2.aliasTable = t.aliasTable := by
  unfold transform at h
  cases hloop : transformLoop args ⟨t, [], []⟩ with
  | error e =>
    rw [hloop] at h
    exact Except.noConfusion h
  | ok st =>
    rw [hloop] at h
    simp only at h
    have hframe := (transformLoop_frame args ⟨t, [], []⟩ st hloop).1
    split at h
    · split at h
      · exact Except.noConfusion h
      · injection h with h1
        have h2 : st.t = t2 := congrArg Prod.fst h1
        rw [← h2]
        exact hframe
    · injection h with h1
      have h2 : st.t = t2 := congrArg Prod.fst h1
      rw [← h2]
      exact hframe

/-- C7 witness: the alias table survives the mutating call on `tVM`. -/
theorem C7_witness : tVM1.aliasTable = tVM.aliasTable :=
  C7_alias_table_preserved env0 tVM ["vm"] tVM1 ["vm"] [("vm", "account list")]
    (by decide)

/-- C8 counterexample: for the bare section `cm` with template
`vm -g {0} -n {1}`, the template has two distinct placeholders but the scan
derives a count of zero and consumes nothing, emitting the raw placeholders;
and the derived count is not distinct-counting (`{0} {0}` counts twice). -/
theorem C8_counterexample :
    specDistinctPlaceholderCount "vm -g {0} -n {1}" = 2 ∧
    count_positional_args (get_full_alias tCMbare.aliasTable "cm") = 0 ∧
    count_positional_args "x {0} {0}" = 2 ∧
    specDistinctPlaceholderCount "x {0} {0}" = 1 ∧
    transform env0 tCMbare ["cm", "x", "y"] =
      .ok (⟨[("cm", some "vm -g {0} -n {1}")], [],
        "^vm -g {0} -n {1}($|\\s)x($|\\s)y($|\\s)", []⟩,
        ["vm", "-g", "{0}", "-n", "{1}", "x", "y"], []) := by decide

/-- C8 (amended): the derived positional count used by the scan equals the
number (with multiplicity) of `{n}` placeholder occurrences in the string
it is applied to — the stored full alias key — not the distinct placeholder
count of the command template. -/
theorem C8_count_is_key_occurrences (s : String) :
    count_positional_args s = posCount s.toList :=
  phCount_eq_posCount s.toList

/-- C9: on an argument vector none of whose tokens resolves to an alias (so
the scan expands nothing), if post-processing alone changes the output and
some resulting token outside the collision cache names a defined alias,
`transform` raises the recursive-alias error. -/
theorem C9_post_processing_recursion (env : String → Option String)
    (t : AliasTransformer) (args : List String) (tok : String)
    (hWF : ∀ e ∈ t.aliasTable, e.1 ≠ "")
    (htok : ∀ a ∈ args, pySplit a = [a] ∧ get_full_alias t.aliasTable a = "")
    (hne : post_transform env args ≠ args)
    (hmem : tok ∈ post_transform env args)
    (hcache : tok ∉ t.collisionCache)
    (hargs : tok ∉ args)
    (hres : get_full_alias t.aliasTable tok ≠ "") :
    ∃ tok2, transform env t args = .error (.recursiveAlias tok2) := by
  obtain ⟨T2, hloop, hT2⟩ := transformLoop_inert args ⟨t, [], []⟩
    hWF (fun a ha => htok a ha)
  have hcache2 : tok ∉ T2.collisionCache := by
    intro hx
    rcases (transformLoop_frame args ⟨t, [], []⟩ _ hloop).2 tok hx with h | h
    · exact hcache h
    · exact hargs h
  have hres2 : get_full_alias T2.aliasTable tok ≠ "" := by
    rw [hT2]
    exact hres
  have hsome : ((post_transform env ([] ++ args)).find? (fun sub =>
      decide (sub ∉ T2.collisionCache) &&
        decide (get_full_alias T2.aliasTable sub ≠ ""))).isSome := by
    rw [List.nil_append]
    exact List.find?_isSome.mpr ⟨tok, hmem, by simp [hcache2, hres2]⟩
  obtain ⟨tok2, hfind⟩ := Option.isSome_iff_exists.mp hsome
  refine ⟨tok2, ?_⟩
  unfold transform
  rw [hloop]
  simp only
  rw [if_pos (show post_transform env ([] ++ args) ≠ args from by
    rw [List.nil_append]; exact hne)]
  have hcheck : check_recursive_alias T2 (post_transform env ([] ++ args)) =
      some tok2 := hfind
  rw [hcheck]

/-- C9 witness: with alias `gl → group list` defined, the input `['gl']`
(quoted) expands nothing, quote trimming exposes `gl`, and the
recursive-alias error is raised naming it. -/
theorem C9_witness :
    transform env0 tGL ["'gl'"] = .error (.recursiveAlias "gl") := by
  obtain ⟨tok2, h⟩ := C9_post_processing_recursion env0 tGL ["'gl'"] "gl"
    (by decide) (by decide) (by decide) (by decide) (by decide) (by decide)
    (by decide)
  exact (by decide)

/-- C10 counterexample: an argument vector containing an empty token can
still succeed — the empty token is consumed as a positional argument and
the flag check never touches it. -/
theorem C10_counterexample :
    (("" : String) ∈ ["cm", ""]) ∧
    transform env0 tCM0 ["cm", ""] =
      .ok (⟨[("cm {0}", some "group {0}")], [], "^cm($|\\s)", []⟩, ["group"], []) := by
  decide

/-- C10 (amended): the scan fails with the index error exactly when it
reaches an empty token as a command token, and on vectors of non-empty
tokens `transform` never raises the index error. -/
theorem C10_empty_token (st : StepState) (rest : List String) :
    transformLoop ("" :: rest) st = .error .indexError ∧
    ∀ (env : String → Option String) (t : AliasTransformer) (args : List String),
      (∀ tok ∈ args, tok ≠ "") → transform env t args ≠ .error .indexError := by
  constructor
  · rfl
  · intro env t args htok h
    unfold transform at h
    cases hloop : transformLoop args ⟨t, [], []⟩ with
    | error e =>
      rw [hloop] at h
      injection h with h1
      rw [h1] at hloop
      exact transformLoop_ne_indexError args ⟨t, [], []⟩ htok hloop
    | ok st1 =>
      rw [hloop] at h
      simp only at h
      split at h
      · split at h
        · injection h with h1
          exact TransformError.noConfusion h1
        · exact Except.noConfusion h
      · exact Except.noConfusion h

/-- C10 witness: the loop faults on an empty token in command position;
a non-empty vector never index-errors. -/
theorem C10_witness :
    transformLoop [""] ⟨tEmpty, [], []⟩ = .error .indexError ∧
    transform env0 tEmpty ["a"] ≠ .error .indexError :=
  ⟨(C10_empty_token ⟨tEmpty, [], []⟩ []).1,
   (C10_empty_token ⟨tEmpty, [], []⟩ []).2 env0 tEmpty ["a"] (by decide)⟩

end AliasSpec
